import Mathlib

/-!
Verification development for the OwlDB hierarchical document store.

The definitions below are a shallow embedding of the Go sources of the
repository:

* package `skiplist` (the concurrent skip list backing every container),
* package `contents` (`PutDocument` and the document/collection structs),
* package `database` (`PutDatabase`),
* package `sse` (`SubscriberHandler.Notify`, the subscription fabric),
* package `handlers` (`PatchHandler` and the patch visitors).

The skip list is modelled by its sequential (single-thread) semantics: the
state is the level-0 linked list of nodes between the `head` and `tail`
sentinels, in key order, together with the structural-modification counter
`count`.  In a quiescent state every reachable node has `fullyLinked = true`
and `marked = false`, so the flags are not represented; comments at each
operation record where the flag checks and the lock/retry loops of the source
collapse in the sequential model.  The level drawn by `randomLevel` and Go's
`time.Now()` are passed as explicit arguments, and Go slice indexing that can
panic is modelled by an explicit error value.
-/

namespace OwlDB

/-!
### String ordering

Go compares `string` keys of the skip list byte-wise lexicographically
(`cmp.Ordered`'s `<` and `>`).  `strLt` is that comparison on the characters
of a Lean string; UTF-8 encoding preserves the order of code points, so the
byte-wise and character-wise comparisons agree.
-/

/-- Lexicographic strict order on character lists (Go's `<` on strings). -/
def chLt : List Char → List Char → Bool
  | _, [] => false
  | [], _ :: _ => true
  | a :: as, b :: bs => if a < b then true else if b < a then false else chLt as bs

/-- Go's `a < b` on string keys. -/
def strLt (a b : String) : Bool := chLt a.data b.data

theorem chLt_irrefl : ∀ a : List Char, chLt a a = false := by
  intro a
  induction a with
  | nil => rfl
  | cons x xs ih => simp [chLt, lt_irrefl, ih]

theorem chLt_trans : ∀ {a b c : List Char},
    chLt a b = true → chLt b c = true → chLt a c = true := by
  intro a b c hab hbc
  induction a generalizing b c with
  | nil =>
    cases c with
    | nil => cases b <;> simp [chLt] at hab hbc
    | cons c cs => simp [chLt]
  | cons x xs ih =>
    cases b with
    | nil => simp [chLt] at hab
    | cons y ys =>
      cases c with
      | nil => simp [chLt] at hbc
      | cons z zs =>
        simp only [chLt] at hab hbc ⊢
        by_cases hxy : x < y
        · by_cases hyz : y < z
          · have hxz : x < z := lt_trans hxy hyz
            simp [hxz]
          · by_cases hzy : z < y
            · simp [hxy, hyz, hzy] at hbc
            · have : y = z := le_antisymm (not_lt.mp hzy) (not_lt.mp hyz)
              subst this
              simp [hxy]
        · by_cases hyx : y < x
          · simp [hxy, hyx] at hab
          · have : x = y := le_antisymm (not_lt.mp hyx) (not_lt.mp hxy)
            subst this
            simp only [lt_irrefl, if_false] at hab ⊢
            by_cases hxz : x < z
            · simp [hxz]
            · by_cases hzx : z < x
              · simp [hxz, hzx] at hbc
              · simp [hxz, hzx] at hbc ⊢
                exact ih hab hbc

theorem chLt_conn : ∀ {a b : List Char},
    chLt a b = false → chLt b a = false → a = b := by
  intro a b hab hba
  induction a generalizing b with
  | nil =>
    cases b with
    | nil => rfl
    | cons y ys => simp [chLt] at hab
  | cons x xs ih =>
    cases b with
    | nil => simp [chLt] at hba
    | cons y ys =>
      simp only [chLt] at hab hba
      by_cases hxy : x < y
      · simp [hxy] at hab
      · by_cases hyx : y < x
        · simp [hxy, hyx] at hba
        · have hk : x = y := le_antisymm (not_lt.mp hyx) (not_lt.mp hxy)
          subst hk
          simp only [lt_irrefl, if_false] at hab hba
          rw [ih hab hba]

theorem strLt_irrefl (a : String) : strLt a a = false := chLt_irrefl a.data

theorem strLt_trans {a b c : String} (hab : strLt a b = true)
    (hbc : strLt b c = true) : strLt a c = true := chLt_trans hab hbc

theorem strLt_conn {a b : String} (hab : strLt a b = false)
    (hba : strLt b a = false) : a = b := by
  have h : a.data = b.data := chLt_conn hab hba
  cases a
  cases b
  exact congrArg String.mk h

/-- If `stop < start` and not `key < start` then `stop < key`
(used on the empty-range boundary of `Query`). -/
theorem strLt_of_lt_of_not_lt {stop start key : String}
    (h1 : strLt stop start = true) (h2 : strLt key start = false) :
    strLt stop key = true := by
  cases hsk : strLt stop key with
  | true => rfl
  | false =>
    cases hks : strLt key stop with
    | true => exact absurd (strLt_trans hks h1) (by simp [h2])
    | false =>
      have : key = stop := strLt_conn hks hsk
      subst this
      exact absurd h1 (by simp [h2])

/-!
### The skip list (package `skiplist`)

The source fixes `const MAX_LEVEL = 11`; the `head` and `tail` sentinels and
the `preds`/`succs` slices of `find` all have length `MAX_LEVEL`, so the
valid level indices are `0 .. MAX_LEVEL-1`.
-/

def MAX_LEVEL : Nat := 11

/-- A node of the skip list: key, value, and the level drawn at insertion
(`topLevel`).  The per-node mutex and the `marked`/`fullyLinked` flags of the
source are concurrency machinery with no sequential content. -/
structure SLNode (V : Type) where
  key : String
  value : V
  topLevel : Nat
deriving Repr, DecidableEq

/-- A skip list: its level-0 node list in key order, plus the structural
modification counter `count` (an `atomic.Int64` in the source). -/
structure SkipList (V : Type) where
  nodes : List (SLNode V)
  count : Nat
deriving Repr, DecidableEq

/-- `NewSkipList` returns an empty list (head linked to tail at every level)
with `count = 0`. -/
def NewSkipList (V : Type) : SkipList V := { nodes := [], count := 0 }

/-- The sortedness invariant of the level-0 list (keys strictly increase). -/
abbrev SkipList.Sorted {V : Type} (s : SkipList V) : Prop :=
  s.nodes.Pairwise (fun a b => strLt a.key b.key = true)

/-- `randomLevel`'s loop: `level := 1; for coin && level < MAX_LEVEL { level++ }`.
The stream of `rand.Float64() < 0.5` draws is passed as a list of booleans. -/
def randomLevelGo : List Bool → Nat → Nat
  | [], level => level
  | coin :: rest, level =>
    if coin then
      if level < MAX_LEVEL then randomLevelGo rest (level + 1) else level
    else level

/-- `randomLevel` of the source: a geometric draw starting at 1, capped at
`MAX_LEVEL` (note: capped at `MAX_LEVEL` itself, not `MAX_LEVEL - 1`). -/
def randomLevel (coins : List Bool) : Nat := randomLevelGo coins 1

/-- Sequential projection of the `find` helper: the node with the given key,
if present.  (`find` reports `foundLevel = victim.topLevel` for a present
key and `-1` otherwise; `Find` then reads the node's value and returns
`found = fullyLinked && !marked`, which is `true` in a quiescent state.) -/
def SkipList.findNode {V : Type} (s : SkipList V) (k : String) : Option (SLNode V) :=
  s.nodes.find? (fun n => n.key == k)

/-- `Find(key) → (value, found)` of the source. -/
def SkipList.Find {V : Type} (s : SkipList V) (k : String) : Option V :=
  (s.findNode k).map (fun n => n.value)

/-- `foundNode.value.Store(&newValue)`: overwrite the value of the (first)
node with the given key, in place. -/
def setNodeValue {V : Type} : List (SLNode V) → String → V → List (SLNode V)
  | [], _, _ => []
  | n :: rest, k, nv =>
    if n.key == k then { n with value := nv } :: rest
    else n :: setNodeValue rest k nv

/-- Linking a new node between `preds[0]` and `succs[0]`: the node enters the
level-0 list directly before the first node with a larger key. -/
def linkNode {V : Type} : List (SLNode V) → SLNode V → List (SLNode V)
  | [], nd => [nd]
  | n :: rest, nd =>
    if strLt nd.key n.key then nd :: n :: rest else n :: linkNode rest nd

/-- Unlinking the victim node: `preds[level].next[level] = victim.next[level]`
at every level removes the (first) node with the given key from the list. -/
def unlinkNode {V : Type} : List (SLNode V) → String → List (SLNode V)
  | [], _ => []
  | n :: rest, k => if n.key == k then rest else n :: unlinkNode rest k

/-- The errors `Upsert` can surface: a callback error, or the panic raised by
indexing `preds[topLevel]`/`succs[topLevel]` when the drawn `topLevel` equals
`MAX_LEVEL` (the slices have length `MAX_LEVEL`, indices `0..MAX_LEVEL-1`,
while `randomLevel` can return `MAX_LEVEL`). -/
inductive UpsertErr (E : Type) where
  | callback (e : E)
  | indexOutOfRange
deriving Repr, DecidableEq

/-- `Upsert(key, check)` of the source, sequential semantics.

* Key present (`levelFound != -1`): the node is locked; in a quiescent state
  it is fully linked and unmarked, so no retry happens.  `check` is called
  with the current value and `exists = true`; on error the function unlocks
  and returns `(false, err)` **without** storing a value; on success the
  value is stored in place and the function returns `(true, nil)` without
  touching `count`.
* Key absent: `topLevel := randomLevel()` (passed here as `lvl`).  The
  predecessor-locking loop reads `preds[level]` for `level = 0 .. topLevel`;
  if `topLevel = MAX_LEVEL` the access `preds[MAX_LEVEL]` is out of bounds
  (modelled as `UpsertErr.indexOutOfRange`; this happens before `check` is
  invoked).  Otherwise validation succeeds sequentially, `check` is called
  with the zero value of `V` (`zeroV` here) and `exists = false`; on error
  everything is unlocked and `(false, err)` is returned with no node linked;
  on success the node is linked, `count` is incremented and `(true, nil)`
  is returned. -/
def SkipList.Upsert {V E : Type} (s : SkipList V) (k : String)
    (check : String → V → Bool → Except E V) (lvl : Nat) (zeroV : V) :
    Except (UpsertErr E) Bool × SkipList V :=
  match s.findNode k with
  | some nd =>
    match check k nd.value true with
    | Except.error e => (Except.error (UpsertErr.callback e), s)
    | Except.ok nv => (Except.ok true, { s with nodes := setNodeValue s.nodes k nv })
  | none =>
    if MAX_LEVEL ≤ lvl then
      (Except.error UpsertErr.indexOutOfRange, s)
    else
      match check k zeroV false with
      | Except.error e => (Except.error (UpsertErr.callback e), s)
      | Except.ok nv =>
        (Except.ok true,
          { nodes := linkNode s.nodes { key := k, value := nv, topLevel := lvl },
            count := s.count + 1 })

/-- `Remove(key) → (removedValue, removed)` of the source, sequential
semantics: a present key is found at `foundLevel = victim.topLevel`, the
victim is fully linked and unmarked in a quiescent state, so it is marked,
unlinked at every level, and `count` is incremented; an absent key returns
`(zero, false)` with no state change. -/
def SkipList.Remove {V : Type} (s : SkipList V) (k : String) :
    Option V × SkipList V :=
  match s.findNode k with
  | none => (none, s)
  | some nd =>
    (some nd.value, { nodes := unlinkNode s.nodes k, count := s.count + 1 })

/-- `Query(ctx, start, end)` of the source, sequential semantics.

* If `start` is the empty string the traversal begins at `head.next[0]`
  (the whole list); otherwise at `find(start).succs[0]`, the first node
  whose key is not `< start`.
* The level-0 walk stops at `tail`, or — when `end` is not the empty
  string — at the first node with `current.key > end`.
* Values of visited nodes are collected (`fullyLinked && !marked` holds for
  every node in a quiescent state).
* The `count` re-check never triggers a restart sequentially, and without a
  cancelled context no error is returned. -/
def SkipList.Query {V : Type} (s : SkipList V) (start stop : String) : List V :=
  let fromStart :=
    if start == "" then s.nodes
    else s.nodes.dropWhile (fun n => strLt n.key start)
  let inRange :=
    if stop == "" then fromStart
    else fromStart.takeWhile (fun n => ! strLt stop n.key)
  inRange.map (fun n => n.value)

/-!
### Operation traces over a skip list

Used to state the structural-counter invariant: an operation is either an
`Upsert` (with its callback, its `randomLevel` draw and the zero value of
`V`) or a `Remove`.
-/

inductive SLOp (V E : Type) where
  | upsertOp (k : String) (check : String → V → Bool → Except E V) (lvl : Nat) (zeroV : V)
  | removeOp (k : String)

def SkipList.applyOp {V E : Type} (s : SkipList V) : SLOp V E → SkipList V
  | SLOp.upsertOp k check lvl zeroV => (s.Upsert k check lvl zeroV).2
  | SLOp.removeOp k => (s.Remove k).2

def SkipList.runOps {V E : Type} (s : SkipList V) : List (SLOp V E) → SkipList V
  | [] => s
  | op :: rest => (s.applyOp op).runOps rest

/-- An operation changed the structure of the index exactly when the number
of nodes changed: a successful insert adds one node, a successful remove
drops one, and an in-place value update or a failed operation leaves the
node list as it was. -/
def SkipList.structuralChange {V E : Type} (s : SkipList V) (op : SLOp V E) : Bool :=
  (s.applyOp op).nodes.length != s.nodes.length

def SkipList.numStructuralChanges {V E : Type} (s : SkipList V) :
    List (SLOp V E) → Nat
  | [] => 0
  | op :: rest =>
    (if s.structuralChange op then 1 else 0)
      + (s.applyOp op).numStructuralChanges rest

theorem setNodeValue_length {V : Type} (l : List (SLNode V)) (k : String) (nv : V) :
    (setNodeValue l k nv).length = l.length := by
  induction l with
  | nil => rfl
  | cons n rest ih =>
    by_cases h : (n.key == k) = true
    · simp [setNodeValue, h]
    · simp [setNodeValue, h, ih]

theorem linkNode_length {V : Type} (l : List (SLNode V)) (nd : SLNode V) :
    (linkNode l nd).length = l.length + 1 := by
  induction l with
  | nil => rfl
  | cons n rest ih =>
    by_cases h : strLt nd.key n.key = true
    · simp [linkNode, h]
    · simp [linkNode, h, ih]

theorem unlinkNode_length_of_found {V : Type} (l : List (SLNode V)) (k : String)
    (nd : SLNode V) (h : l.find? (fun n => n.key == k) = some nd) :
    (unlinkNode l k).length + 1 = l.length := by
  induction l with
  | nil => simp at h
  | cons n rest ih =>
    by_cases hk : (n.key == k) = true
    · simp [unlinkNode, hk]
    · rw [List.find?_cons_of_neg _ (by simp [hk])] at h
      simp [unlinkNode, hk, ih h]

/-- The per-operation counter step: `count` grows by one exactly when the
operation changed the structure. -/
theorem applyOp_count {V E : Type} (s : SkipList V) (op : SLOp V E) :
    (s.applyOp op).count
      = s.count + (if s.structuralChange op then 1 else 0) := by
  cases op with
  | upsertOp k check lvl zeroV =>
    cases hf : s.findNode k with
    | some nd =>
      cases hc : check k nd.value true with
      | error e =>
        simp [SkipList.applyOp, SkipList.Upsert, SkipList.structuralChange, hf, hc]
      | ok nv =>
        simp [SkipList.applyOp, SkipList.Upsert, SkipList.structuralChange, hf, hc,
          setNodeValue_length]
    | none =>
      by_cases hlvl : MAX_LEVEL ≤ lvl
      · simp [SkipList.applyOp, SkipList.Upsert, SkipList.structuralChange, hf, hlvl]
      · cases hc : check k zeroV false with
        | error e =>
          simp [SkipList.applyOp, SkipList.Upsert, SkipList.structuralChange, hf, hlvl, hc]
        | ok nv =>
          simp [SkipList.applyOp, SkipList.Upsert, SkipList.structuralChange, hf, hlvl, hc,
            linkNode_length]
  | removeOp k =>
    cases hf : s.findNode k with
    | none =>
      simp [SkipList.applyOp, SkipList.Remove, SkipList.structuralChange, hf]
    | some nd =>
      have hlen := unlinkNode_length_of_found s.nodes k nd hf
      simp only [SkipList.applyOp, SkipList.Remove, SkipList.structuralChange, hf]
      have : (unlinkNode s.nodes k).length ≠ s.nodes.length := by omega
      simp [this]

theorem runOps_count {V E : Type} (s : SkipList V) (ops : List (SLOp V E)) :
    (s.runOps ops).count = s.count + s.numStructuralChanges ops := by
  induction ops generalizing s with
  | nil => simp [SkipList.runOps, SkipList.numStructuralChanges]
  | cons op rest ih =>
    simp only [SkipList.runOps, SkipList.numStructuralChanges]
    rw [ih, applyOp_count]
    omega

/-- **C9.**  The skip list's structural modification counter is incremented
exactly by successful inserts and successful removes and is left unchanged by
pure in-place value updates: after any sequence of operations starting from a
new skip list, `count` equals the number of operations that changed the node
structure (each successful insert and each successful remove, and nothing
else, changes the length of the node list). -/
theorem skiplist_count_invariant {V E : Type} (ops : List (SLOp V E)) :
    ((NewSkipList V).runOps ops).count
      = (NewSkipList V).numStructuralChanges ops := by
  have h := runOps_count (NewSkipList V) ops
  simpa [NewSkipList] using h

/-- The update callback of the skip list package's own test. -/
def updateCheckTest : String → Nat → Bool → Except String Nat :=
  fun _ cur ex => Except.ok (if ex then cur + 1 else 1)

/-- The list after inserting "key1" once. -/
def oneKeyList : SkipList Nat :=
  ((NewSkipList Nat).Upsert "key1" updateCheckTest 1 0).2

/-- **C2.**  Counterexample evaluation: the source's `Upsert` on an existing
key (its in-place update path, `return true, nil`) reports `updated = true`
although no new node was inserted — the node list and the counter are
unchanged.  The skip list's own test asserts this behaviour
(`assert.True(t, updated, "Upsert should update an existing node")`), while
the specified contract is `changed` iff a new node was inserted. -/
theorem upsert_inplace_update_returns_true :
    (oneKeyList.findNode "key1").isSome = true
    ∧ (oneKeyList.Upsert "key1" updateCheckTest 1 0).1 = Except.ok true
    ∧ (oneKeyList.Upsert "key1" updateCheckTest 1 0).2.nodes.length
      = oneKeyList.nodes.length
    ∧ (oneKeyList.Upsert "key1" updateCheckTest 1 0).2.count = oneKeyList.count :=
  ⟨rfl, rfl, rfl, rfl⟩

/-- **C5.**  Counterexample evaluation: `randomLevel` can return `MAX_LEVEL`
(ten successive heads), and an insert with that `topLevel` reads
`preds[MAX_LEVEL]` on a slice of length `MAX_LEVEL` — an out-of-bounds
access (a panic in Go), so `Upsert` is not total on every insert. -/
theorem upsert_at_max_level_out_of_bounds :
    randomLevel (List.replicate 10 true) = MAX_LEVEL
    ∧ ((NewSkipList Nat).Upsert "a"
        (fun _ _ _ => (Except.ok 37 : Except String Nat))
        (randomLevel (List.replicate 10 true)) 0).1
      = Except.error UpsertErr.indexOutOfRange :=
  ⟨rfl, rfl⟩

/-- **C6.**  If the callback invoked by `Upsert` returns an error, `Upsert`
returns that same error (wrapped as a callback error) and the index state is
unchanged — whether the key already existed (the update path errors before
storing a value) or not (the insert path errors before linking the node).
The hypothesis `hinvoked` restricts to executions that reach the callback:
on the insert path a draw of `lvl = MAX_LEVEL` panics before `check` runs. -/
theorem upsert_callback_error_unchanged {V E : Type} (s : SkipList V) (k : String)
    (check : String → V → Bool → Except E V) (lvl : Nat) (zeroV : V) (e : E)
    (hinvoked : (s.findNode k).isSome = true ∨ lvl < MAX_LEVEL)
    (hcheck : ∀ cur ex, check k cur ex = Except.error e) :
    s.Upsert k check lvl zeroV = (Except.error (UpsertErr.callback e), s) := by
  cases hf : s.findNode k with
  | some nd => simp [SkipList.Upsert, hf, hcheck]
  | none =>
    have hlvl : lvl < MAX_LEVEL := by
      rcases hinvoked with h | h
      · rw [hf] at h
        simp at h
      · exact h
    simp [SkipList.Upsert, hf, hcheck, Nat.not_le.mpr hlvl]

theorem upsert_callback_error_unchanged_w :
    SkipList.Upsert (NewSkipList Nat) "a"
        (fun _ _ _ => Except.error "boom") 1 0
      = (Except.error (UpsertErr.callback "boom"), NewSkipList Nat) :=
  upsert_callback_error_unchanged (NewSkipList Nat) "a"
    (fun _ _ _ => Except.error "boom") 1 0 "boom"
    (Or.inr (by decide)) (fun _ _ => rfl)

/-!
### Range queries (claim C7)
-/

theorem sorted_dropWhile_lt {V : Type} {l : List (SLNode V)}
    (h : l.Pairwise (fun a b => strLt a.key b.key = true)) (a : String) :
    l.dropWhile (fun n => strLt n.key a)
      = l.filter (fun n => ! strLt n.key a) := by
  induction l with
  | nil => rfl
  | cons n rest ih =>
    rw [List.pairwise_cons] at h
    cases hn : strLt n.key a with
    | true => simp [List.dropWhile_cons, List.filter_cons, hn, ih h.2]
    | false =>
      have hrest : rest.filter (fun m => ! strLt m.key a) = rest := by
        apply List.filter_eq_self.mpr
        intro m hm
        cases hma : strLt m.key a with
        | false => simp
        | true =>
          have := strLt_trans (h.1 m hm) hma
          rw [this] at hn
          cases hn
      simp [List.dropWhile_cons, List.filter_cons, hn, hrest]

theorem sorted_takeWhile_le {V : Type} {l : List (SLNode V)}
    (h : l.Pairwise (fun a b => strLt a.key b.key = true)) (b : String) :
    l.takeWhile (fun n => ! strLt b n.key)
      = l.filter (fun n => ! strLt b n.key) := by
  induction l with
  | nil => rfl
  | cons n rest ih =>
    rw [List.pairwise_cons] at h
    cases hn : strLt b n.key with
    | true =>
      have hrest : rest.filter (fun m => ! strLt b m.key) = [] := by
        apply List.filter_eq_nil.mpr
        intro m hm
        have := strLt_trans hn (h.1 m hm)
        simp [this]
      simp [List.takeWhile_cons, List.filter_cons, hn, hrest]
    | false => simp [List.takeWhile_cons, List.filter_cons, hn, ih h.2]

/-- A sorted skip list stays pairwise-sorted after filtering. -/
theorem query_eq_filter {V : Type} (s : SkipList V) (hs : s.Sorted)
    (start stop : String) :
    s.Query start stop
      = (s.nodes.filter (fun n =>
          ((start == "") || ! strLt n.key start)
          && ((stop == "") || ! strLt stop n.key))).map (fun n => n.value) := by
  have hp : s.nodes.Pairwise (fun a b => strLt a.key b.key = true) := hs
  unfold SkipList.Query
  cases h1 : (start == "") with
  | true =>
    cases h2 : (stop == "") with
    | true => simp
    | false =>
      simp [sorted_takeWhile_le hp stop]
  | false =>
    cases h2 : (stop == "") with
    | true =>
      simp [sorted_dropWhile_lt hp start]
    | false =>
      have hpf : (s.nodes.filter (fun n => ! strLt n.key start)).Pairwise
          (fun a b => strLt a.key b.key = true) :=
        List.Pairwise.filter _ hp
      simp only [Bool.false_eq_true, if_false, Bool.false_or,
        sorted_dropWhile_lt hp start, sorted_takeWhile_le hpf stop,
        List.filter_filter]
      have hcong : ∀ n ∈ s.nodes,
          ((! strLt stop n.key) && (! strLt n.key start))
            = ((! strLt n.key start) && (! strLt stop n.key)) := by
        intro n _
        exact Bool.and_comm _ _
      rw [List.filter_congr hcong]

/-- **C7.**  `Query(ctx, start, end)` returns exactly the values whose keys
`k` satisfy `start ≤ k ≤ end` (in the byte-wise string order), in ascending
key order (the filter of the sorted node list); an empty `start` means from
the smallest key, an empty `end` means to the largest; and when
`start > end` with both non-empty the result is the empty list (and, per the
model, no error is possible without a cancelled context). -/
theorem query_range_spec {V : Type} (s : SkipList V) (hs : s.Sorted)
    (start stop : String) :
    (s.Query start stop
      = (s.nodes.filter (fun n =>
          ((start == "") || ! strLt n.key start)
          && ((stop == "") || ! strLt stop n.key))).map (fun n => n.value))
    ∧ (start ≠ "" → stop ≠ "" → strLt stop start = true →
        s.Query start stop = []) := by
  refine ⟨query_eq_filter s hs start stop, ?_⟩
  intro hstart hstop hlt
  rw [query_eq_filter s hs start stop]
  have hfil : s.nodes.filter (fun n =>
      ((start == "") || ! strLt n.key start)
      && ((stop == "") || ! strLt stop n.key)) = [] := by
    apply List.filter_eq_nil.mpr
    intro n _
    have h1 : (start == "") = false := by
      cases hb : (start == "") with
      | true => exact absurd (by simpa using hb) hstart
      | false => rfl
    have h2 : (stop == "") = false := by
      cases hb : (stop == "") with
      | true => exact absurd (by simpa using hb) hstop
      | false => rfl
    cases hks : strLt n.key start with
    | true => simp [h1, h2, hks]
    | false =>
      have := strLt_of_lt_of_not_lt hlt hks
      simp [h1, h2, hks, this]
  rw [hfil]
  rfl

/-- A concrete three-node skip list used to instantiate `query_range_spec`. -/
def queryWitnessList : SkipList Nat :=
  { nodes := [⟨"a", 10, 1⟩, ⟨"b", 20, 1⟩, ⟨"c", 30, 1⟩], count := 3 }

theorem query_range_spec_w :
    queryWitnessList.Sorted
    ∧ ((queryWitnessList.Query "z" "a"
        = (queryWitnessList.nodes.filter (fun n =>
            (("z" == "") || ! strLt n.key "z")
            && (("a" == "") || ! strLt "a" n.key))).map (fun n => n.value))
      ∧ ("z" ≠ "" → "a" ≠ "" → strLt "a" "z" = true →
          queryWitnessList.Query "z" "a" = [])) :=
  ⟨by decide, query_range_spec queryWitnessList (by decide) "z" "a"⟩

/-!
### Document store (package `contents`)
-/

/-- `contents.Metadata`: creator/modifier and Unix timestamps. -/
structure Metadata where
  createdBy : String
  createdAt : Int
  lastModifiedBy : String
  lastModifiedAt : Int
deriving Repr, DecidableEq

/-- `contents.Document`.  The body `Content` (a `[]byte`) is modelled by a
type parameter `B`; the nested collection index (`Collections`, a
`skiplist.DBIndex` interface value) by `Option C`, where `none` is Go's nil
interface — the zero value of the field — and `C` the index representation.
The per-document `Subscribers` map feeds response streams only and holds no
stored document state, so it is omitted. -/
structure Doc (B C : Type) where
  name : String
  path : String
  content : B
  metadata : Metadata
  collections : Option C
deriving Repr, DecidableEq

/-- The zero `Document` (Go's `*new(V)`), given the zero value of `B`. -/
def zeroDoc {B C : Type} (zeroB : B) : Doc B C :=
  { name := "", path := "", content := zeroB
    metadata := { createdBy := "", createdAt := 0, lastModifiedBy := "", lastModifiedAt := 0 }
    collections := none }

/-- `contents.PutDocument`.  `schema.ValidateDocument` is modelled as
`schema : B → Except String Bool` (the source inspects only the error);
`time.Now().Unix()` is the argument `now`; the `randomLevel` draw inside the
skip list's `Upsert` is `lvl`; `skiplist.NewSkipList` for the collection
index of a brand-new document is `freshC`.

The `updateCheck` callback mirrors the source line by line: `newValue`
starts from the zero document with `Name` and `Content` assigned; the body
is validated against the schema (error propagates, `currValue` unchanged);
with `mode == "nooverwrite"` an existing key is a conflict error; an
existing document keeps `CreatedBy`/`CreatedAt` from `currValue` and gets
`LastModifiedBy = user`, `LastModifiedAt = now` — note that
`newValue.Collections` is never assigned in this branch, so it keeps the
zero value `none`; a fresh document gets a new collection index and full
metadata.  (`currValue.HandleUpdate` and `newValue.NotifySubscribers` write
to per-document subscriber streams and change no index state.) -/
def PutDocument {B C : Type} (documentList : SkipList (Doc B C))
    (documentName : String) (documentContent : B) (user mode : String)
    (schema : B → Except String Bool) (now : Int) (lvl : Nat)
    (zeroB : B) (freshC : C) :
    Except (UpsertErr String) Bool × SkipList (Doc B C) :=
  documentList.Upsert documentName
    (fun key currValue exists_ =>
      let newValue0 : Doc B C :=
        { zeroDoc zeroB with name := key, content := documentContent }
      match schema documentContent with
      | Except.error e => Except.error e
      | Except.ok _ =>
        if exists_ && (mode == "nooverwrite") then
          Except.error "document exists and mode is nooverwrite"
        else if exists_ then
          Except.ok { newValue0 with metadata :=
            { createdBy := currValue.metadata.createdBy
              createdAt := currValue.metadata.createdAt
              lastModifiedBy := user
              lastModifiedAt := now } }
        else
          Except.ok { newValue0 with
            collections := some freshC
            metadata :=
              { createdBy := user, createdAt := now
                lastModifiedBy := user, lastModifiedAt := now } })
    lvl (zeroDoc zeroB)

/-- A stored document with a non-empty collection index, and the store
holding it — the pre-state of the C3/C8 evaluations. -/
def docOverwriteBefore : Doc String Nat :=
  { name := "doc1", path := "/db1/doc1", content := "old"
    metadata := { createdBy := "alice", createdAt := 100
                  lastModifiedBy := "alice", lastModifiedAt := 100 }
    collections := some 5 }

def docsOverwrite0 : SkipList (Doc String Nat) :=
  { nodes := [⟨"doc1", docOverwriteBefore, 1⟩], count := 1 }

/-- The C3 evaluation: overwrite `doc1` with body "new" as user "bob" at
time 200 under an accept-all schema. -/
def overwriteRun : Except (UpsertErr String) Bool × SkipList (Doc String Nat) :=
  PutDocument docsOverwrite0 "doc1" "new" "bob" "overwrite"
    (fun _ => Except.ok true) 200 1 "" 0

/-- **C3.**  Failing-input evaluation: overwriting an existing document's
body with a schema-accepted body preserves `createdBy`/`createdAt`, sets
`lastModifiedBy`/`lastModifiedAt` and replaces the body — but the stored
document's collection index is reset to the zero value (a nil interface)
instead of being preserved: the `exists` branch of `updateCheck` never
copies `currValue.Collections` into `newValue`, so the collections do not
survive a body overwrite. -/
theorem putDocument_overwrite_drops_collections :
    overwriteRun.1 = Except.ok true
    ∧ ((overwriteRun.2.Find "doc1").map (fun d => d.metadata))
      = some { createdBy := "alice", createdAt := 100
               lastModifiedBy := "bob", lastModifiedAt := 200 }
    ∧ ((overwriteRun.2.Find "doc1").map (fun d => d.content)) = some "new"
    ∧ ((overwriteRun.2.Find "doc1").map (fun d => d.collections)) = some none
    ∧ docOverwriteBefore.collections = some 5 :=
  ⟨rfl, rfl, rfl, rfl, rfl⟩

/-- **C8.**  `PutDocument` with `mode = "nooverwrite"` on an existing name
returns an error — the conflict error whenever the schema accepts the body,
a validation error otherwise — and the stored document (body and metadata)
is unchanged: both error paths leave the index exactly as it was. -/
theorem putDocument_nooverwrite_conflict {B C : Type}
    (docs : SkipList (Doc B C)) (k : String) (nd : SLNode (Doc B C))
    (content : B) (user : String) (schema : B → Except String Bool)
    (now : Int) (lvl : Nat) (zeroB : B) (freshC : C)
    (hfind : docs.findNode k = some nd) :
    ((PutDocument docs k content user "nooverwrite" schema now lvl zeroB freshC).2
      = docs)
    ∧ (∃ e, (PutDocument docs k content user "nooverwrite" schema now lvl zeroB freshC).1
        = Except.error (UpsertErr.callback e))
    ∧ (∀ b, schema content = Except.ok b →
        (PutDocument docs k content user "nooverwrite" schema now lvl zeroB freshC).1
          = Except.error
              (UpsertErr.callback "document exists and mode is nooverwrite")) := by
  cases hschema : schema content with
  | error e =>
    refine ⟨?_, ⟨e, ?_⟩, ?_⟩
    · simp [PutDocument, SkipList.Upsert, hfind, hschema]
    · simp [PutDocument, SkipList.Upsert, hfind, hschema]
    · intro b hb
      simp at hb
  | ok b0 =>
    refine ⟨?_, ⟨"document exists and mode is nooverwrite", ?_⟩, ?_⟩
    · simp [PutDocument, SkipList.Upsert, hfind, hschema]
    · simp [PutDocument, SkipList.Upsert, hfind, hschema]
    · intro b _
      simp [PutDocument, SkipList.Upsert, hfind, hschema]

theorem putDocument_nooverwrite_conflict_w :
    ((PutDocument (C := Nat) docsOverwrite0 "doc1" "other" "jim" "nooverwrite"
        (fun _ => Except.ok true) 300 1 "" 0).2 = docsOverwrite0)
    ∧ (∃ e, (PutDocument (C := Nat) docsOverwrite0 "doc1" "other" "jim" "nooverwrite"
        (fun _ => Except.ok true) 300 1 "" 0).1
        = Except.error (UpsertErr.callback e))
    ∧ (∀ b, (fun _ : String => (Except.ok true : Except String Bool)) "other"
          = Except.ok b →
        (PutDocument (C := Nat) docsOverwrite0 "doc1" "other" "jim" "nooverwrite"
          (fun _ => Except.ok true) 300 1 "" 0).1
          = Except.error
              (UpsertErr.callback "document exists and mode is nooverwrite")) :=
  putDocument_nooverwrite_conflict docsOverwrite0 "doc1"
    ⟨"doc1", docOverwriteBefore, 1⟩ "other" "jim"
    (fun _ => Except.ok true) 300 1 "" 0 rfl

/-!
### Subscription fabric (package `sse`)
-/

/-- `sse.Subscriber`: the subscribed path and the buffered event channel
(`make(chan string, 100)`), modelled as the list of queued event strings
together with the registration token keying it in the inner index.  The
cancellation context is connection machinery. -/
structure Subscriber where
  token : String
  path : String
  queue : List String
deriving Repr, DecidableEq

/-- The fabric state: `resourceToken`, the index from resource path to the
index of that resource's subscribers.  Both are skip lists in the source;
their sequential contents are association entries in key order, the inner
index listed in the order `Query(ctx, "", "")` yields. -/
structure Fabric where
  entries : List (String × List Subscriber)
deriving Repr, DecidableEq

/-- `resourceToken.Find(path)`. -/
def Fabric.findSubs (f : Fabric) (resource : String) : Option (List Subscriber) :=
  (f.entries.find? (fun e => e.1 == resource)).map (fun e => e.2)

/-- The non-blocking send (`select { case ch <- msg: ... default: drop }`)
on the capacity-100 channel: a full queue drops the event. -/
def sendEvent (msg : String) (sub : Subscriber) : Subscriber :=
  if sub.queue.length < 100 then { sub with queue := sub.queue ++ [msg] } else sub

/-- `strings.Split(s, "/")` on the characters of `s`. -/
def splitChars : List Char → List Char → List String
  | [], cur => [String.mk cur.reverse]
  | c :: rest, cur =>
    if c == '/' then String.mk cur.reverse :: splitChars rest []
    else splitChars rest (c :: cur)

def splitSlash (s : String) : List String := splitChars s.data []

/-- `strings.TrimPrefix(s, pre)`. -/
def chIsPrefix : List Char → List Char → Bool
  | [], _ => true
  | _ :: _, [] => false
  | a :: as, b :: bs => a == b && chIsPrefix as bs

def trimPrefixGo (s pre : String) : String :=
  if chIsPrefix pre.data s.data then String.mk (s.data.drop pre.data.length) else s

/-- The prefix-selection loop of `Notify`: at index `i` the accumulated
`pathToBuild` is `TrimPrefix(pathToBuild + "/" + part, "/")`, and subscribers
are looked up only when `i % 2 == 0 || i == len(rawparts)-1`. -/
def notifySelected (total : Nat) : List String → Nat → String → List String
  | [], _, _ => []
  | p :: rest, i, acc =>
    let acc2 := trimPrefixGo (acc ++ "/" ++ p) "/"
    (if i % 2 == 0 || i == total - 1 then [acc2] else [])
      ++ notifySelected total rest (i + 1) acc2

/-- The resource prefixes `Notify(resource, ..)` actually visits. -/
def notifyPaths (resource : String) : List String :=
  let raw := splitSlash resource
  notifySelected raw.length raw 0 ""

/-- One visited prefix: `Find(pathToBuild)`; if absent, continue; otherwise
`Query(ctx, "", "")` lists the subscribers and each gets the non-blocking
send. -/
def notifyOne (f : Fabric) (p msg : String) : Fabric :=
  { entries := f.entries.map (fun e =>
      if e.1 == p then (e.1, e.2.map (sendEvent msg)) else e) }

/-- `SubscriberHandler.Notify(resource, event, data)`: visit the selected
prefixes in order and push `fmt.Sprintf("%s;%s", event, data)`. -/
def Notify (f : Fabric) (resource event data : String) : Fabric :=
  (notifyPaths resource).foldl
    (fun acc p => notifyOne acc p (event ++ ";" ++ data)) f

/-- The valid resource prefixes of a changed path on the alternating tree as
the specification words them — the database prefix, each document prefix,
each collection prefix, and the path itself: the cumulative `/`-joins of the
path's segments at every index.  (This definition follows the spec's words;
it is the yardstick the source's `notifyPaths` is compared against.) -/
def cumJoins : List String → String → List String
  | [], _ => []
  | q :: rest, acc =>
    let acc2 := if acc == "" then q else acc ++ "/" ++ q
    acc2 :: cumJoins rest acc2

def specResourcePaths (p : String) : List String := cumJoins (splitSlash p) ""

theorem findSubs_notifyOne (f : Fabric) (p msg r : String) :
    (notifyOne f p msg).findSubs r
      = (f.findSubs r).map
          (fun subs => if (r == p) = true then subs.map (sendEvent msg) else subs) := by
  obtain ⟨l⟩ := f
  induction l with
  | nil => rfl
  | cons e rest ih =>
    have hge : ((if (e.1 == p) = true
        then (e.1, e.2.map (sendEvent msg)) else e)).1 = e.1 := by
      by_cases h : (e.1 == p) = true
      · simp [h]
      · simp [h]
    cases he : (e.1 == r) with
    | true =>
      have her : e.1 = r := by simpa using he
      simp only [notifyOne, Fabric.findSubs, List.map_cons]
      rw [List.find?_cons_of_pos _ (by rw [hge]; exact he),
          show List.find? (fun x => x.1 == r) (e :: rest) = some e from
            List.find?_cons_of_pos _ he]
      by_cases hrp : (r == p) = true
      · have hepq : (e.1 == p) = true := by
          have h2 : r = p := by simpa using hrp
          rw [her, h2]
          simp
        simp [hepq, hrp]
      · have hepq : (e.1 == p) = false := by
          cases hq : (e.1 == p) with
          | true =>
            have h3 : e.1 = p := by simpa using hq
            rw [her] at h3
            exact absurd (by simp [h3]) hrp
          | false => rfl
        simp [hepq, hrp]
    | false =>
      simp only [notifyOne, Fabric.findSubs, List.map_cons]
      rw [List.find?_cons_of_neg _ (by rw [hge, he]; simp),
          show List.find? (fun x => x.1 == r) (e :: rest)
              = List.find? (fun x => x.1 == r) rest from
            List.find?_cons_of_neg _ (by rw [he]; simp)]
      simp only [notifyOne, Fabric.findSubs] at ih
      exact ih

/-- Folding `notifyOne` over a prefix list sends the message to the entry at
`r` once per occurrence of `r` among the visited prefixes. -/
theorem findSubs_notify_fold (paths : List String) (f : Fabric)
    (msg r : String) (subs : List Subscriber)
    (hfind : f.findSubs r = some subs) :
    (paths.foldl (fun acc p => notifyOne acc p msg) f).findSubs r
      = some ((fun l => l.map (sendEvent msg))^[paths.count r] subs) := by
  induction paths generalizing f subs with
  | nil => simpa [List.count_nil] using hfind
  | cons p rest ih =>
    have hstep := findSubs_notifyOne f p msg r
    rw [hfind] at hstep
    cases hrp : (r == p) with
    | true =>
      have hc : (p :: rest).count r = rest.count r + 1 := by
        have : p = r := by
          have : r = p := by simpa using hrp
          exact this.symm
        simp [List.count_cons, this]
      rw [hc]
      have := ih (notifyOne f p msg) (subs.map (sendEvent msg))
        (by rw [hstep]; simp [hrp])
      rw [List.foldl_cons]
      rw [this]
      rw [Function.iterate_succ_apply]
    | false =>
      have hc : (p :: rest).count r = rest.count r := by
        have : ¬ p = r := by
          intro hpr
          subst hpr
          simp at hrp
        simp [List.count_cons, this]
      rw [hc]
      have := ih (notifyOne f p msg) subs (by rw [hstep]; simp [hrp])
      rw [List.foldl_cons]
      exact this

/-- **C4 (amended).**  `Notify(p, e, d)` delivers `e;d` exactly to the
subscribers whose resource is one of the prefixes the source visits —
the prefixes at even split index (the database and each collection level)
and `p` itself — modulo drops for full queues (inside `sendEvent`):
an entry at any other resource is untouched, and an entry whose resource is
visited once has the message pushed to each of its subscribers. -/
theorem notify_delivers_exactly (f : Fabric) (resource event data r : String)
    (subs : List Subscriber) (hfind : f.findSubs r = some subs) :
    ((notifyPaths resource).count r = 0 →
      (Notify f resource event data).findSubs r = some subs)
    ∧ ((notifyPaths resource).count r = 1 →
      (Notify f resource event data).findSubs r
        = some (subs.map (sendEvent (event ++ ";" ++ data)))) := by
  constructor
  · intro h0
    have := findSubs_notify_fold (notifyPaths resource) f
      (event ++ ";" ++ data) r subs hfind
    rw [h0] at this
    simpa using this
  · intro h1
    have := findSubs_notify_fold (notifyPaths resource) f
      (event ++ ";" ++ data) r subs hfind
    rw [h1] at this
    simpa using this

theorem notify_delivers_exactly_w :
    ((notifyPaths "a/b/c").count "a" = 0 →
      (Notify { entries := [("a", [⟨"t", "a", []⟩])] } "a/b/c" "update" "d").findSubs "a"
        = some [⟨"t", "a", []⟩])
    ∧ ((notifyPaths "a/b/c").count "a" = 1 →
      (Notify { entries := [("a", [⟨"t", "a", []⟩])] } "a/b/c" "update" "d").findSubs "a"
        = some ([⟨"t", "a", []⟩].map (sendEvent ("update" ++ ";" ++ "d")))) :=
  notify_delivers_exactly { entries := [("a", [⟨"t", "a", []⟩])] }
    "a/b/c" "update" "d" "a" [⟨"t", "a", []⟩] rfl

/-- The fabric of the C4 counterexample: one subscriber, with an empty (not
full) queue, at the document prefix "a/b" of the changed path "a/b/c". -/
def fabDocPrefix : Fabric :=
  { entries := [("a/b", [{ token := "t", path := "a/b", queue := [] }])] }

/-- **C4 (counterexample).**  "a/b" is a valid resource prefix — the
document prefix — of the changed path "a/b/c", and the subscriber at "a/b"
has an empty queue, yet `Notify("a/b/c", "update", "d")` delivers nothing to
it: the source visits only the prefixes with `i%2 == 0 || i == len-1`
("a" and "a/b/c" here), skipping the intermediate document level, so the
claimed "subscriber at every ancestor depth receives the event" fails. -/
theorem notify_skips_document_prefix :
    ("a/b" ∈ specResourcePaths "a/b/c")
    ∧ notifyPaths "a/b/c" = ["a", "a/b/c"]
    ∧ Notify fabDocPrefix "a/b/c" "update" "d" = fabDocPrefix :=
  ⟨by decide, rfl, rfl⟩

/-!
### Databases (package `database`)
-/

/-- `database.Database`: the name and the top-level document index (a nil
interface before assignment — the zero value — modelled as `Option`; its
contents are irrelevant to `PutDatabase`). -/
structure DBVal where
  name : String
  documents : Option Unit
deriving Repr, DecidableEq

/-- `database.PutDatabase`.  The source calls
`subscriberHandler.Notify(fullPath, "update", ...)` unconditionally, before
`databaseList.Upsert` runs, so the notification is sent exactly once per
call whatever the upsert's outcome; `updateCheck` rejects an existing name
with "database already exists" and otherwise builds the fresh database. -/
def PutDatabase (databaseList : SkipList DBVal) (databaseName : String)
    (f : Fabric) (fullPath : String) (lvl : Nat) :
    (Except (UpsertErr String) Bool × SkipList DBVal) × Fabric :=
  let f2 := Notify f fullPath "update"
    ("\x7b\"path\":\"" ++ fullPath ++ "\"\x7d")
  (databaseList.Upsert databaseName
    (fun key _currValue exists_ =>
      if exists_ then Except.error "database already exists"
      else Except.ok { name := key, documents := some () })
    lvl { name := "", documents := none }, f2)

/-- **C10.**  Every `PutDatabase` call sends exactly one "update"
notification for the full path before attempting the upsert: the resulting
fabric is exactly `Notify(fullPath, "update", {"path": fullPath})` applied
once, so a subscriber at that path receives the event — even when the
database name already exists, the call returns the conflict error, and the
database list is unchanged. -/
theorem putDatabase_notifies_despite_conflict (dbs : SkipList DBVal)
    (name : String) (f : Fabric) (fullPath : String) (lvl : Nat)
    (nd : SLNode DBVal) (subs : List Subscriber)
    (hexists : dbs.findNode name = some nd)
    (hfind : f.findSubs fullPath = some subs)
    (hcount : (notifyPaths fullPath).count fullPath = 1) :
    ((PutDatabase dbs name f fullPath lvl).1.1
      = Except.error (UpsertErr.callback "database already exists"))
    ∧ ((PutDatabase dbs name f fullPath lvl).1.2 = dbs)
    ∧ ((PutDatabase dbs name f fullPath lvl).2
      = Notify f fullPath "update" ("\x7b\"path\":\"" ++ fullPath ++ "\"\x7d"))
    ∧ ((PutDatabase dbs name f fullPath lvl).2.findSubs fullPath
      = some (subs.map (sendEvent
          ("update" ++ ";" ++ ("\x7b\"path\":\"" ++ fullPath ++ "\"\x7d"))))) := by
  refine ⟨?_, ?_, rfl, ?_⟩
  · simp [PutDatabase, SkipList.Upsert, hexists]
  · simp [PutDatabase, SkipList.Upsert, hexists]
  · have := findSubs_notify_fold (notifyPaths fullPath) f
      ("update" ++ ";" ++ ("\x7b\"path\":\"" ++ fullPath ++ "\"\x7d"))
      fullPath subs hfind
    rw [hcount] at this
    simpa [PutDatabase, Notify] using this

theorem putDatabase_notifies_despite_conflict_w :
    ((PutDatabase { nodes := [⟨"db1", ⟨"db1", some ()⟩, 1⟩], count := 1 } "db1"
        { entries := [("db1", [⟨"t", "db1", []⟩])] } "db1" 1).1.1
      = Except.error (UpsertErr.callback "database already exists"))
    ∧ ((PutDatabase { nodes := [⟨"db1", ⟨"db1", some ()⟩, 1⟩], count := 1 } "db1"
        { entries := [("db1", [⟨"t", "db1", []⟩])] } "db1" 1).1.2
      = { nodes := [⟨"db1", ⟨"db1", some ()⟩, 1⟩], count := 1 })
    ∧ ((PutDatabase { nodes := [⟨"db1", ⟨"db1", some ()⟩, 1⟩], count := 1 } "db1"
        { entries := [("db1", [⟨"t", "db1", []⟩])] } "db1" 1).2
      = Notify { entries := [("db1", [⟨"t", "db1", []⟩])] } "db1" "update"
          ("\x7b\"path\":\"" ++ "db1" ++ "\"\x7d"))
    ∧ ((PutDatabase { nodes := [⟨"db1", ⟨"db1", some ()⟩, 1⟩], count := 1 } "db1"
        { entries := [("db1", [⟨"t", "db1", []⟩])] } "db1" 1).2.findSubs "db1"
      = some ([⟨"t", "db1", []⟩].map (sendEvent
          ("update" ++ ";" ++ ("\x7b\"path\":\"" ++ "db1" ++ "\"\x7d"))))) :=
  putDatabase_notifies_despite_conflict
    { nodes := [⟨"db1", ⟨"db1", some ()⟩, 1⟩], count := 1 } "db1"
    { entries := [("db1", [⟨"t", "db1", []⟩])] } "db1" 1
    ⟨"db1", ⟨"db1", some ()⟩, 1⟩ [⟨"t", "db1", []⟩] rfl rfl (by decide)

/-!
### JSON values and the patch engine (package `handlers`)
-/

/-- A parsed JSON value (what Go's `json.Unmarshal` produces into
`map[string]interface{}` / `[]interface{}` / scalars).  Object members are
kept as a field list.  `json.Marshal` after `json.Unmarshal` round-trips the
parsed value, so document bodies are modelled as parsed values rather than
byte slices, and "byte-for-byte after re-serialization" becomes equality of
parsed values. -/
inductive JSON where
  | null
  | boolV (b : Bool)
  | num (n : Int)
  | str (s : String)
  | arr (elems : List JSON)
  | obj (fields : List (String × JSON))
deriving Repr

/-- Go map read `curr[part]` (first binding wins; keys are unique in a map
produced by `json.Unmarshal`). -/
def lookupField (fields : List (String × JSON)) (k : String) : Option JSON :=
  (fields.find? (fun e => e.1 == k)).map (fun e => e.2)

/-- Go map write `curr[k] = v`: overwrite the existing binding or add one. -/
def setField : List (String × JSON) → String → JSON → List (String × JSON)
  | [], k, v => [(k, v)]
  | (k0, v0) :: rest, k, v =>
    if k0 == k then (k0, v) :: rest else (k0, v0) :: setField rest k v

/-- `strings.ReplaceAll(token, "~1", "/")`: left-to-right, non-overlapping. -/
def replTilde1 : List Char → List Char
  | [] => []
  | '~' :: '1' :: rest => '/' :: replTilde1 rest
  | c :: rest => c :: replTilde1 rest

/-- `strings.ReplaceAll(·, "~0", "~")`. -/
def replTilde0 : List Char → List Char
  | [] => []
  | '~' :: '0' :: rest => '~' :: replTilde0 rest
  | c :: rest => c :: replTilde0 rest

/-- `decodeJSONPointerToken`: replace `~1` with `/`, then `~0` with `~`. -/
def decodeJSONPointerToken (token : String) : String :=
  String.mk (replTilde0 (replTilde1 token.data))

/-- `strconv.Atoi` (integer overflow aside): optional sign, then decimal
digits; anything else is an error (`none`). -/
def digitsValGo : List Char → Nat → Option Nat
  | [], acc => some acc
  | c :: rest, acc =>
    if c.isDigit then digitsValGo rest (acc * 10 + (c.toNat - '0'.toNat))
    else none

def digitsVal (cs : List Char) : Option Nat :=
  match cs with
  | [] => none
  | _ :: _ => digitsValGo cs 0

def goAtoi (s : String) : Option Int :=
  match s.data with
  | '+' :: rest => (digitsVal rest).map (fun n => (n : Int))
  | '-' :: rest => (digitsVal rest).map (fun n => -(n : Int))
  | cs => (digitsVal cs).map (fun n => (n : Int))

mutual

/-- Modelled from the spec: `jsondata.JSONValue.Equal`, the structural JSON
equality used by `ArrayRemove` ("remove the first element equal to the
provided value by structural JSON equality").  The `jsondata` file defining
`JSONValue` is not among the repository's source files (only `ValidSchema`
and the package's tests are). -/
def jeq : JSON → JSON → Bool
  | JSON.null, JSON.null => true
  | JSON.boolV a, JSON.boolV b => a == b
  | JSON.num a, JSON.num b => a == b
  | JSON.str a, JSON.str b => a == b
  | JSON.arr xs, JSON.arr ys => jeqList xs ys
  | JSON.obj fs, JSON.obj gs => jeqFields fs gs
  | _, _ => false

def jeqList : List JSON → List JSON → Bool
  | [], [] => true
  | x :: xs, y :: ys => jeq x y && jeqList xs ys
  | _, _ => false

def jeqFields : List (String × JSON) → List (String × JSON) → Bool
  | [], [] => true
  | (k1, v1) :: fs, (k2, v2) :: gs => k1 == k2 && jeq v1 v2 && jeqFields fs gs
  | _, _ => false

end

/-- The `ArrayRemove` search: drop the first element `Equal` to the value,
or report that none matched. -/
def removeFirstEq : List JSON → JSON → Option (List JSON)
  | [], _ => none
  | x :: rest, v =>
    if jeq v x then some rest
    else (removeFirstEq rest v).map (fun l => x :: l)

/-- `ObjectAddVisitor.VisitMap`, as a recursion over the path tokens
(`strings.Split(strings.TrimPrefix(path, "/"), "/")`).

Each loop iteration of the source (`i < len(parts)-1`) is one recursive step
on `tok :: next :: rest2`; a single remaining token is the assignment
target (`curr[finalKey] = v.Value`).  When the member at the decoded token
is an array, the source consumes the following token — undecoded — as a
decimal index (`strconv.Atoi(parts[i+1])`, error when malformed, negative
or out of range), requires the element there to be an object, and skips the
index token (`i++`); when the index token was also the last token, it still
serves as the final assignment key (decoded) inside the element object. -/
def objectAddVisit (value : JSON) :
    List String → List (String × JSON) → Except String (List (String × JSON))
  | [], _fields =>
    -- unreachable: strings.Split never yields an empty slice
    Except.error "empty path"
  | [last], fields =>
    Except.ok (setField fields (decodeJSONPointerToken last) value)
  | tok :: next :: rest2, fields =>
    let part := decodeJSONPointerToken tok
    match lookupField fields part with
    | some (JSON.obj sub) =>
      match objectAddVisit value (next :: rest2) sub with
      | Except.error e => Except.error e
      | Except.ok sub2 => Except.ok (setField fields part (JSON.obj sub2))
    | some (JSON.arr xs) =>
      match goAtoi next with
      | none => Except.error "invalid array index at path"
      | some idx =>
        if idx < 0 ∨ (xs.length : Int) ≤ idx then
          Except.error "invalid array index at path"
        else
          match xs.getD idx.toNat JSON.null with
          | JSON.obj m =>
            match rest2 with
            | [] =>
              Except.ok (setField fields part
                (JSON.arr (xs.set idx.toNat
                  (JSON.obj (setField m (decodeJSONPointerToken next) value)))))
            | _ :: _ =>
              match objectAddVisit value rest2 m with
              | Except.error e => Except.error e
              | Except.ok m2 =>
                Except.ok (setField fields part
                  (JSON.arr (xs.set idx.toNat (JSON.obj m2))))
          | _ => Except.error "element at path is not a valid object"
    | _ => Except.error "path does not resolve to an object or array"

/-- `ArrayAddVisitor.VisitMap`: the same traversal; the final token must
name an array member, which gets the value appended. -/
def arrayAddVisit (value : JSON) :
    List String → List (String × JSON) → Except String (List (String × JSON))
  | [], _fields => Except.error "empty path"
  | [last], fields =>
    let finalKey := decodeJSONPointerToken last
    match lookupField fields finalKey with
    | some (JSON.arr ys) =>
      Except.ok (setField fields finalKey (JSON.arr (ys ++ [value])))
    | _ => Except.error "value at path is not an array"
  | tok :: next :: rest2, fields =>
    let part := decodeJSONPointerToken tok
    match lookupField fields part with
    | some (JSON.obj sub) =>
      match arrayAddVisit value (next :: rest2) sub with
      | Except.error e => Except.error e
      | Except.ok sub2 => Except.ok (setField fields part (JSON.obj sub2))
    | some (JSON.arr xs) =>
      match goAtoi next with
      | none => Except.error "invalid array index at path"
      | some idx =>
        if idx < 0 ∨ (xs.length : Int) ≤ idx then
          Except.error "invalid array index at path"
        else
          match xs.getD idx.toNat JSON.null with
          | JSON.obj m =>
            match rest2 with
            | [] =>
              match lookupField m (decodeJSONPointerToken next) with
              | some (JSON.arr ys) =>
                Except.ok (setField fields part
                  (JSON.arr (xs.set idx.toNat
                    (JSON.obj (setField m (decodeJSONPointerToken next)
                      (JSON.arr (ys ++ [value])))))))
              | _ => Except.error "value at path is not an array"
            | _ :: _ =>
              match arrayAddVisit value rest2 m with
              | Except.error e => Except.error e
              | Except.ok m2 =>
                Except.ok (setField fields part
                  (JSON.arr (xs.set idx.toNat (JSON.obj m2))))
          | _ => Except.error "element at path is not a valid object"
    | _ => Except.error "path does not resolve to an object or array"

/-- `ArrayRemoveVisitor.VisitMap`: the same traversal; the final token must
name an array member, from which the first element structurally equal to the
value is removed. -/
def arrayRemoveVisit (value : JSON) :
    List String → List (String × JSON) → Except String (List (String × JSON))
  | [], _fields => Except.error "empty path"
  | [last], fields =>
    let finalKey := decodeJSONPointerToken last
    match lookupField fields finalKey with
    | some (JSON.arr ys) =>
      match removeFirstEq ys value with
      | some ys2 => Except.ok (setField fields finalKey (JSON.arr ys2))
      | none => Except.error "value not found in array at path"
    | _ => Except.error "value at path is not an array"
  | tok :: next :: rest2, fields =>
    let part := decodeJSONPointerToken tok
    match lookupField fields part with
    | some (JSON.obj sub) =>
      match arrayRemoveVisit value (next :: rest2) sub with
      | Except.error e => Except.error e
      | Except.ok sub2 => Except.ok (setField fields part (JSON.obj sub2))
    | some (JSON.arr xs) =>
      match goAtoi next with
      | none => Except.error "invalid array index at path"
      | some idx =>
        if idx < 0 ∨ (xs.length : Int) ≤ idx then
          Except.error "invalid array index at path"
        else
          match xs.getD idx.toNat JSON.null with
          | JSON.obj m =>
            match rest2 with
            | [] =>
              match lookupField m (decodeJSONPointerToken next) with
              | some (JSON.arr ys) =>
                match removeFirstEq ys value with
                | some ys2 =>
                  Except.ok (setField fields part
                    (JSON.arr (xs.set idx.toNat
                      (JSON.obj (setField m (decodeJSONPointerToken next)
                        (JSON.arr ys2))))))
                | none => Except.error "value not found in array at path"
              | _ => Except.error "value at path is not an array"
            | _ :: _ =>
              match arrayRemoveVisit value rest2 m with
              | Except.error e => Except.error e
              | Except.ok m2 =>
                Except.ok (setField fields part
                  (JSON.arr (xs.set idx.toNat (JSON.obj m2))))
          | _ => Except.error "element at path is not a valid object"
    | _ => Except.error "path does not resolve to an object or array"

/-- A patch operation of the batch body (`{op, path, value}`). -/
structure PatchOperation where
  op : String
  path : String
  value : JSON

/-- `PatchResponse`: `{uri, patchFailed, message}`. -/
structure PatchResponse where
  uri : String
  patchFailed : Bool
  message : String
deriving Repr

/-- The handler's supported-operation set
(`map[string]bool{"ArrayAdd": true, "ArrayRemove": true, "ObjectAdd": true}`). -/
def supportedOps (op : String) : Bool :=
  op == "ArrayAdd" || op == "ArrayRemove" || op == "ObjectAdd"

/-- `applyPatch` with the `applyObjectAdd`/`applyArrayAdd`/`applyArrayRemove`
helpers: unmarshal `document.Content` into a JSON object (an error when the
body is not an object), run the matching visitor, marshal the result back
into `document.Content`, then **persist immediately** with
`contents.PutDocument(documentList, document.Name, document.Content, user,
"overwrite", schema)`.  Returns the locally updated document on success,
and in every case the store as left by the call. -/
def applyPatchOp {C : Type} (document : Doc JSON C) (patch : PatchOperation)
    (documentList : SkipList (Doc JSON C)) (user : String)
    (schema : JSON → Except String Bool) (now : Int) (lvl : Nat) (freshC : C) :
    Except String (Doc JSON C) × SkipList (Doc JSON C) :=
  match document.content with
  | JSON.obj fields =>
    let parts := splitSlash (trimPrefixGo patch.path "/")
    let visited : Except String (List (String × JSON)) :=
      match patch.op with
      | "ObjectAdd" => objectAddVisit patch.value parts fields
      | "ArrayAdd" => arrayAddVisit patch.value parts fields
      | "ArrayRemove" => arrayRemoveVisit patch.value parts fields
      | _ => Except.error ("unsupported patch operation: " ++ patch.op)
    match visited with
    | Except.error e => (Except.error e, documentList)
    | Except.ok fields2 =>
      let document2 := { document with content := JSON.obj fields2 }
      match PutDocument documentList document.name document2.content user
          "overwrite" schema now lvl JSON.null freshC with
      | (Except.error _, docs2) =>
        (Except.error "failed to update document in skiplist", docs2)
      | (Except.ok _, docs2) => (Except.ok document2, docs2)
  | _ => (Except.error "failed to unmarshal document content", documentList)

/-- The patch loop of `PatchHandler`: operations in list order; an
unsupported `op` or a failed application sets `patchFailed` and breaks
(carrying the first failure's message); a successful application carries the
locally updated document and the store into the next iteration. -/
def patchLoop {C : Type} (user : String) (schema : JSON → Except String Bool)
    (now : Int) (lvl : Nat) (freshC : C) :
    Doc JSON C → SkipList (Doc JSON C) → List PatchOperation →
      Bool × String × Doc JSON C × SkipList (Doc JSON C)
  | document, docs, [] => (false, "", document, docs)
  | document, docs, patch :: rest =>
    if ! supportedOps patch.op then
      (true, "Invalid operation type: " ++ patch.op, document, docs)
    else
      match applyPatchOp document patch docs user schema now lvl freshC with
      | (Except.error e, docs2) =>
        (true, "Patch failed: " ++ e, document, docs2)
      | (Except.ok document2, docs2) =>
        patchLoop user schema now lvl freshC document2 docs2 rest

/-- `PatchHandler` after path resolution: `documentFound` is fetched from
the document list (a missing document is a 404 before the loop, `none`
here), `originalContent := documentFound.Content` is saved, the loop runs,
and on failure the source reverts `documentFound.Content` — the **local**
copy only; the store keeps whatever the per-operation `PutDocument` calls
persisted.  Returns the response `{uri, patchFailed, message}`, the local
(possibly reverted) document, and the store. -/
def PatchHandlerCore {C : Type} (docs : SkipList (Doc JSON C))
    (docName : String) (patchOps : List PatchOperation) (user : String)
    (schema : JSON → Except String Bool) (now : Int) (lvl : Nat) (freshC : C)
    (uri : String) :
    Option (PatchResponse × Doc JSON C × SkipList (Doc JSON C)) :=
  match docs.Find docName with
  | none => none
  | some documentFound =>
    let originalContent := documentFound.content
    let r := patchLoop user schema now lvl freshC documentFound docs patchOps
    let failed := r.1
    let docLocal :=
      if failed then { r.2.2.1 with content := originalContent } else r.2.2.1
    some ({ uri := uri, patchFailed := failed
            message := if failed then r.2.1 else "patch applied" },
          docLocal, r.2.2.2)

/-- The C1 pre-state: an existing document whose body is `{"a": {}}`. -/
def patchDocBefore : Doc JSON Nat :=
  { name := "doc1", path := "/db1/doc1"
    content := JSON.obj [("a", JSON.obj [])]
    metadata := { createdBy := "alice", createdAt := 100
                  lastModifiedBy := "alice", lastModifiedAt := 100 }
    collections := none }

def patchDocs0 : SkipList (Doc JSON Nat) :=
  { nodes := [⟨"doc1", patchDocBefore, 1⟩], count := 1 }

/-- The C1 batch: a succeeding `ObjectAdd` followed by a failing `ArrayAdd`
(spec scenario: `[{"op":"ArrayAdd","path":"/missing",...}]` fails with
`patchFailed = true` and the body must stay unchanged). -/
def patchBatchC1 : List PatchOperation :=
  [ { op := "ObjectAdd", path := "/a/x", value := JSON.num 7 },
    { op := "ArrayAdd", path := "/missing", value := JSON.num 1 } ]

/-- **C1.**  Failing-input evaluation: on body `{"a": {}}` the batch
`[ObjectAdd /a/x 7, ArrayAdd /missing 1]` reports `patchFailed = true`
(the second operation fails), yet the stored body afterwards is
`{"a": {"x": 7}}` — the first operation's effect was already persisted by
`applyObjectAdd`'s immediate `PutDocument`, and the failure path reverts
only the handler's local copy of the document, so the stored body does not
equal the pre-patch body. -/
theorem patch_failed_persists_partial_batch :
    ((PatchHandlerCore patchDocs0 "doc1" patchBatchC1 "bob"
        (fun _ => Except.ok true) 200 1 0 "/doc1").map
          (fun r => r.1.patchFailed)) = some true
    ∧ ((PatchHandlerCore patchDocs0 "doc1" patchBatchC1 "bob"
        (fun _ => Except.ok true) 200 1 0 "/doc1").map
          (fun r => (r.2.2.Find "doc1").map (fun d => d.content)))
      = some (some (JSON.obj [("a", JSON.obj [("x", JSON.num 7)])]))
    ∧ patchDocBefore.content = JSON.obj [("a", JSON.obj [])]
    ∧ JSON.obj [("a", JSON.obj [("x", JSON.num 7)])]
        ≠ JSON.obj [("a", JSON.obj [])] :=
  ⟨rfl, rfl, rfl, by simp⟩

end OwlDB
